import Mathlib

/-!
Shallow embedding of `bakker/checkpoint.py`: the node hierarchy
(directory / file / symlink), the bottom-up checksum builder, the structural
(JSON-like) representation with its round trip, the checkpoint container with
its stack-driven traversal, and the `CheckpointMeta` underscore-separated
string encoding.

Modelling conventions:
* The streaming 64-bit hash (`xxhash.xxh64`) is an external library, so it is
  kept abstract: everything that hashes is parametrised by a `HashModel`
  (initial state, update on byte lists, hex-digest rendering); `update` on a
  Python `str` feeds the string's UTF-8 bytes, as `xxhash` does.
* Python dictionaries are modelled as ordered association lists with Python's
  assignment semantics (overwrite in place keeps the position, fresh keys are
  appended); `dict` comprehensions / loops are folds of that assignment.
* Python exceptions are modelled by `Option`/`Except` results.
* The filesystem seen by the builder is modelled by `FSEntry`: the results of
  the `os.path.islink/isfile/isdir` classification plus the data the builder
  reads (`lstat` mode, `readlink` target, file bytes, `listdir` listing).
-/

namespace Bakker

/-- Python `dict` assignment `d[k] = v`: overwrites in place if the key is
present (keeping its original position), otherwise appends at the end. -/
def pyDictInsert {α : Type} : List (String × α) → String → α → List (String × α)
  | [], k, v => [(k, v)]
  | (k', v') :: rest, k, v =>
    if k' = k then (k', v) :: rest else (k', v') :: pyDictInsert rest k v

/-- A Python `dict` built from a sequence of key/value pairs, processed left to
right (models both `dict` comprehensions and assignment loops). -/
def pyDictOfList {α : Type} (l : List (String × α)) : List (String × α) :=
  l.foldl (fun d kv => pyDictInsert d kv.1 kv.2) []

/-- Python `d[k]` lookup; `none` models a `KeyError`. -/
def pyDictGet {α : Type} : List (String × α) → String → Option α
  | [], _ => none
  | (k', v) :: rest, k => if k' = k then some v else pyDictGet rest k

/-- The node hierarchy of `checkpoint.py`: `DirectoryNode`, `FileNode` and
`SymlinkNode`, each carrying `name`, `checksum` and `permissions`; a directory
additionally owns its `children` dict (insertion-ordered, keyed by name). -/
inductive TreeNode where
  | directory (name checksum : String) (permissions : Nat)
      (children : List (String × TreeNode)) : TreeNode
  | file (name checksum : String) (permissions : Nat) : TreeNode
  | symlink (name checksum : String) (permissions : Nat) : TreeNode

/-- `self.name`. -/
def TreeNode.name : TreeNode → String
  | .directory n _ _ _ => n
  | .file n _ _ => n
  | .symlink n _ _ => n

/-- `self.checksum`. -/
def TreeNode.checksum : TreeNode → String
  | .directory _ c _ _ => c
  | .file _ c _ => c
  | .symlink _ c _ => c

/-- `self.permissions`. -/
def TreeNode.permissions : TreeNode → Nat
  | .directory _ _ p _ => p
  | .file _ _ p => p
  | .symlink _ _ p => p

/-- `self.children` of a `DirectoryNode` (empty for the other variants, which
have no such attribute). -/
def TreeNode.children : TreeNode → List (String × TreeNode)
  | .directory _ _ _ cs => cs
  | _ => []

/-- `isinstance(node, DirectoryNode)`. -/
def TreeNode.isDir : TreeNode → Bool
  | .directory _ _ _ _ => true
  | _ => false

/-- The dictionary produced by the `to_dict` methods: `name`, `checksum`,
`permissions` and the `type` discriminator are always present; the `children`
key is present exactly for directory representations. -/
inductive NodeRepr where
  | mk (name checksum : String) (permissions : Nat) (type : String)
      (children : Option (List NodeRepr)) : NodeRepr

/-- `d['name']`. -/
def NodeRepr.name : NodeRepr → String
  | .mk n _ _ _ _ => n

/-- `d['checksum']`. -/
def NodeRepr.checksum : NodeRepr → String
  | .mk _ c _ _ _ => c

/-- `d['permissions']`. -/
def NodeRepr.permissions : NodeRepr → Nat
  | .mk _ _ p _ _ => p

/-- `d['type']`. -/
def NodeRepr.type : NodeRepr → String
  | .mk _ _ _ t _ => t

/-- `d['children']`, when present. -/
def NodeRepr.childrenField : NodeRepr → Option (List NodeRepr)
  | .mk _ _ _ _ cs => cs

mutual

/-- The `to_dict` methods of the three node classes.  A directory emits
`[child.to_dict() for child in self.children.values()]` (stored order); file
and symlink emit no `children` key. -/
def TreeNode.to_dict : TreeNode → NodeRepr
  | .directory n c p children => .mk n c p "directory" (some (childrenToDicts children))
  | .file n c p => .mk n c p "file" none
  | .symlink n c p => .mk n c p "symlink" none

/-- `[child.to_dict() for child in children.values()]`. -/
def childrenToDicts : List (String × TreeNode) → List NodeRepr
  | [] => []
  | kv :: rest => TreeNode.to_dict kv.2 :: childrenToDicts rest

end

mutual

/-- `TreeNode.from_dict` with the per-class `from_dict` methods inlined at the
dispatch sites: dispatch on `d['type']`; a directory rebuilds its children dict
as `{child['name']: TreeNode.from_dict(child) for child in d['children']}`;
an unrecognized type raises `TypeError('Type ' + d['name'] + ' does not
exist.')`.  Raised exceptions are modelled by `.error` (a missing `children`
key on a directory record would raise `KeyError`). -/
def TreeNode.from_dict : NodeRepr → Except String TreeNode
  | .mk n c p ty children =>
    if ty = "directory" then
      match children with
      | some cs =>
        match decodeChildren cs with
        | .ok l => .ok (.directory n c p (pyDictOfList l))
        | .error e => .error e
      | none => .error "KeyError: children"
    else if ty = "file" then .ok (.file n c p)
    else if ty = "symlink" then .ok (.symlink n c p)
    else .error ("Type " ++ n ++ " does not exist.")

/-- The pairs `(child['name'], TreeNode.from_dict(child))` of the children
comprehension, evaluated left to right; the first raised exception
propagates. -/
def decodeChildren : List NodeRepr → Except String (List (String × TreeNode))
  | [] => .ok []
  | r :: rest =>
    match TreeNode.from_dict r with
    | .ok t =>
      match decodeChildren rest with
      | .ok l => .ok ((r.name, t) :: l)
      | .error e => .error e
    | .error e => .error e

end

mutual

/-- The representation invariant every tree reachable in the Python program
satisfies: in each directory's `children` dict the keys are exactly the child
nodes' own names (the builder and the decoder both key by name) and hence, the
container being a `dict`, distinct. -/
def TreeNode.wf : TreeNode → Bool
  | .directory _ _ _ children =>
    decide ((children.map Prod.fst).Nodup) && childrenWf children
  | _ => true

/-- `TreeNode.wf` for each entry of a children dict: key equals the node's
name, and the node is itself well formed. -/
def childrenWf : List (String × TreeNode) → Bool
  | [] => true
  | (k, t) :: rest => (k == t.name) && TreeNode.wf t && childrenWf rest

end

/-- Abstract model of the external `xxhash.xxh64` streaming hash: the state of
a fresh `xxhash.xxh64()`, `update` on a chunk of bytes, and `hexdigest`. -/
structure HashModel (H : Type) where
  init : H
  update : H → List Nat → H
  hex : H → String

/-- `update` applied to a Python `str`: `xxhash` hashes its UTF-8 bytes. -/
def HashModel.updStr {H : Type} (hm : HashModel H) (h : H) (s : String) : H :=
  hm.update h (s.toUTF8.toList.map UInt8.toNat)

/-- The chunks delivered by the `FileNode.build_node` read loop: successive
`f.read(BLOCKSIZE)` slices of the file's bytes (the final empty read ends the
loop and is not fed to the hash). -/
def chunksOf (n : Nat) (l : List Nat) : List (List Nat) :=
  if _ : l = [] then []
  else if _ : n = 0 then []
  else l.take n :: chunksOf n (l.drop n)
termination_by l.length
decreasing_by
  simpa [List.length_drop] using
    Nat.sub_lt (List.length_pos.mpr (by assumption)) (Nat.pos_of_ne_zero (by assumption))

/-- The file checksum of `FileNode.build_node`: feed the bytes to one
streaming hash in `BLOCKSIZE = 65536` chunks and take the hex digest. -/
def HashModel.fileChecksum {H : Type} (hm : HashModel H) (content : List Nat) : String :=
  hm.hex ((chunksOf 65536 content).foldl hm.update hm.init)

/-- A filesystem entry as the builder observes it: the three classification
predicates (`os.path.islink`, `os.path.isfile`, `os.path.isdir` — the latter
two follow symlinks, so several can hold at once), `stat.S_IMODE(os.lstat)`,
the `os.readlink` target, the file's bytes, and the `os.listdir` children in
the (arbitrary) order the filesystem enumerates them. -/
inductive FSEntry where
  | mk (is_link is_file is_dir : Bool) (mode : Nat) (target : String)
      (content : List Nat) (listing : List (String × FSEntry)) : FSEntry

/-- `os.path.islink(path)`. -/
def FSEntry.is_link : FSEntry → Bool
  | .mk il _ _ _ _ _ _ => il

/-- `os.path.isfile(path)` (follows symlinks). -/
def FSEntry.is_file : FSEntry → Bool
  | .mk _ ifl _ _ _ _ _ => ifl

/-- `os.path.isdir(path)` (follows symlinks). -/
def FSEntry.is_dir : FSEntry → Bool
  | .mk _ _ idr _ _ _ _ => idr

/-- `stat.S_IMODE(os.lstat(path).st_mode)`. -/
def FSEntry.mode : FSEntry → Nat
  | .mk _ _ _ m _ _ _ => m

/-- `os.readlink(path)`: the raw, unresolved link-target string. -/
def FSEntry.target : FSEntry → String
  | .mk _ _ _ _ t _ _ => t

/-- The bytes `open(path, 'rb')` yields. -/
def FSEntry.content : FSEntry → List Nat
  | .mk _ _ _ _ _ c _ => c

/-- `os.listdir(path)`, each name paired with the child's own entry. -/
def FSEntry.listing : FSEntry → List (String × FSEntry)
  | .mk _ _ _ _ _ _ l => l

mutual

/-- `TreeNode.build_node`: dispatch on the entry's classification — symlink
first, then file, then directory; anything else prints a diagnostic and
returns `None` (modelled as `none`).  The directory branch inlines
`DirectoryNode.build_node`: filter the listing (`continue` unless the child
is a file or a directory, printing `Ignored:`), build the kept children into
the children dict, then hash the children's checksum strings in sorted key
order into one fresh streaming hash.  The dict built by the loop is
`pyDictOfList` of the kept `(name, node)` pairs; `children[child_name]` inside
the sorted-keys comprehension is `pyDictGet` (a `KeyError`/`AttributeError`
would abort the build, hence the `Option` plumbing). -/
def buildNode {H : Type} (hm : HashModel H) : FSEntry → String → Option TreeNode
  | .mk il ifl idr mode target content listing, name =>
    if il = true then
      some (.symlink name (hm.hex (hm.updStr hm.init target)) mode)
    else if ifl = true then
      some (.file name (hm.fileChecksum content) mode)
    else if idr = true then
      (buildChildren hm listing).bind (fun built =>
        let children := pyDictOfList built
        (((children.map Prod.fst).mergeSort (fun a b => decide (a ≤ b))).mapM
            (fun k => (pyDictGet children k).map TreeNode.checksum)).map
          (fun child_checksums =>
            .directory name (hm.hex (child_checksums.foldl hm.updStr hm.init)) mode children))
    else none

/-- The kept `(child_name, TreeNode.build_node(child_path, child_name))` pairs
of the `DirectoryNode.build_node` loop, in listing order; a child that is
neither a file nor a directory is skipped (`Ignored:` diagnostic), and a
child whose recursive build returns no node would poison the dict (its later
`.checksum` access raises), which the `none` result models. -/
def buildChildren {H : Type} (hm : HashModel H) :
    List (String × FSEntry) → Option (List (String × TreeNode))
  | [] => some []
  | (n, e) :: rest =>
    if e.is_file = false ∧ e.is_dir = false then
      buildChildren hm rest
    else
      (buildNode hm e n).bind (fun t =>
        (buildChildren hm rest).map (fun l => (n, t) :: l))

end

/-- Spec-side description of the directory checksum (for comparison with the
code): "hash over the checksums of its children taken in lexicographic order
of child name" — sort the child mapping by name, feed the checksum strings to
one streaming hash, take the hex digest. -/
def specDirectoryChecksum {H : Type} (hm : HashModel H)
    (children : List (String × TreeNode)) : String :=
  hm.hex (((children.mergeSort (fun a b => decide (a.1 ≤ b.1))).map
    (fun kv => kv.2.checksum)).foldl hm.updStr hm.init)

/-- A concrete instantiation of the abstract hash, used to evaluate the
builder on closed inputs. -/
def trivialHash : HashModel (List (List Nat)) where
  init := []
  update := fun h bs => h ++ [bs]
  hex := fun _ => ""

/-- ASCII characters of the checkpoint-name character class
`[a-zA-Z0-9_\-.]`. -/
def isNameChar (c : Char) : Bool :=
  c.isAlpha || c.isDigit || c == '_' || c == '-' || c == '.'

/-- Truthiness of `re.match('^[a-zA-Z0-9_\-.]+$', s)`.  `re.match` anchors at
the start, and (outside `MULTILINE`) `$` matches at the end of the string *or
just before a newline at the end of the string*; so the pattern accepts a
non-empty run of class characters, optionally followed by one final
newline. -/
def pyNameMatch (s : String) : Bool :=
  (!s.data.isEmpty && s.data.all isNameChar) ||
    (s.data.getLast? == some '\n' &&
      (!s.data.dropLast.isEmpty && s.data.dropLast.all isNameChar))

/-- A naive `datetime.datetime` (the program only ever builds naive ones):
proleptic-Gregorian field tuple at microsecond resolution. -/
structure DateTime where
  year : Nat
  month : Nat
  day : Nat
  hour : Nat
  minute : Nat
  second : Nat
  microsecond : Nat
deriving DecidableEq

/-- The field ranges `datetime.datetime` itself enforces (`MINYEAR = 1`,
`MAXYEAR = 9999`, and calendar/clock bounds; days per month are coarsened
to 31). -/
def DateTime.Valid (t : DateTime) : Prop :=
  1 ≤ t.year ∧ t.year ≤ 9999 ∧ 1 ≤ t.month ∧ t.month ≤ 12 ∧ 1 ≤ t.day ∧ t.day ≤ 31 ∧
    t.hour ≤ 23 ∧ t.minute ≤ 59 ∧ t.second ≤ 59 ∧ t.microsecond ≤ 999999

instance (t : DateTime) : Decidable t.Valid := by
  unfold DateTime.Valid; infer_instance

/-- `'0'`-padded fixed-width decimal rendering, most significant digit first:
`padDigits k n` is `n` printed as exactly `k` digits (faithful to `%0kd`
formatting whenever `n < 10 ^ k`). -/
def padDigits : Nat → Nat → List Char
  | 0, _ => []
  | k + 1, n => Char.ofNat (48 + n / 10 ^ k) :: padDigits k (n % 10 ^ k)

/-- `datetime.isoformat()` of a naive datetime:
`YYYY-MM-DDTHH:MM:SS` plus `.ffffff` exactly when `microsecond` is nonzero. -/
def DateTime.isoformat (t : DateTime) : List Char :=
  padDigits 4 t.year ++ '-' :: (padDigits 2 t.month ++ '-' :: (padDigits 2 t.day ++
    'T' :: (padDigits 2 t.hour ++ ':' :: (padDigits 2 t.minute ++ ':' ::
      (padDigits 2 t.second ++
        (if t.microsecond = 0 then [] else '.' :: padDigits 6 t.microsecond))))))

/-- Consume exactly the character `c`. -/
def readExact (c : Char) : List Char → Option (List Char)
  | c' :: rest => if c' = c then some rest else none
  | [] => none

/-- Consume exactly `k` decimal digits into the accumulator. -/
def readDigitsAux : Nat → Nat → List Char → Option (Nat × List Char)
  | 0, acc, l => some (acc, l)
  | k + 1, acc, c :: rest =>
    if c.isDigit then readDigitsAux k (acc * 10 + (c.toNat - 48)) rest else none
  | _ + 1, _, [] => none

/-- Consume exactly `k` decimal digits. -/
def readDigits (k : Nat) (l : List Char) : Option (Nat × List Char) :=
  readDigitsAux k 0 l

/-- The optional fractional-seconds component at the end of an ISO-8601
timestamp: nothing (zero microseconds), or `.` followed by exactly six
digits. -/
def readFraction : List Char → Option Nat
  | [] => some 0
  | c :: rest =>
    if c = '.' then
      (readDigits 6 rest).bind (fun p => if p.2 = [] then some p.1 else none)
    else none

/-- Modelled from the spec: `bakker.utils.datetime_from_iso_format` is
imported by `checkpoint.py` but `utils.py` is not under `src/`.  Per the spec
it parses an ISO-8601 timestamp "both with and without a fractional-seconds
component (treating an absent fractional part as zero microseconds)":
`YYYY-MM-DDTHH:MM:SS` optionally followed by `.ffffff`.  A parse failure
(Python `ValueError`) is `none`. -/
def datetime_from_iso_format (l : List Char) : Option DateTime := do
  let (y, l) ← readDigits 4 l
  let l ← readExact '-' l
  let (mo, l) ← readDigits 2 l
  let l ← readExact '-' l
  let (d, l) ← readDigits 2 l
  let l ← readExact 'T' l
  let (h, l) ← readDigits 2 l
  let l ← readExact ':' l
  let (mi, l) ← readDigits 2 l
  let l ← readExact ':' l
  let (se, l) ← readDigits 2 l
  (readFraction l).map (fun us => ⟨y, mo, d, h, mi, se, us⟩)

/-- The `Checkpoint` state: a root node, a timestamp (`datetime.now()` unless
supplied) and an optional validated name. -/
structure Checkpoint where
  root : TreeNode
  time : DateTime
  name : Option String

/-- `Checkpoint.__init__`:
`assert name is None or re.match('^[a-zA-Z0-9_\-.]+$', name)`, then store the
three fields.  The failing assertion (`AssertionError`) is `none`: nothing is
constructed. -/
def Checkpoint.init (root : TreeNode) (time : DateTime) (name : Option String) :
    Option Checkpoint :=
  match name with
  | none => some ⟨root, time, none⟩
  | some s => if pyNameMatch s then some ⟨root, time, some s⟩ else none

/-- POSIX `os.path.join(a, b)` for a single join step: `b` if it is absolute
(starts with `/`), otherwise `a` and `b` glued with exactly one `/`. -/
def osPathJoin (a b : String) : String :=
  if b.data.take 1 = ['/'] then b
  else if a = "" then b
  else if a.data.getLast? = some '/' then a ++ b
  else a ++ "/" ++ b

mutual

/-- Weight `≥ 1` per node, the traversal termination measure. -/
def nodeWeight : TreeNode → Nat
  | .directory _ _ _ cs => 1 + childrenWeight cs
  | _ => 1

/-- Total `nodeWeight` of a children dict's values. -/
def childrenWeight : List (String × TreeNode) → Nat
  | [] => 0
  | kv :: rest => nodeWeight kv.2 + childrenWeight rest

end

/-- The sequence yielded by `Checkpoint.iter()` from a given stack: pop the
top, yield it, and if it is a directory (`TreeNode.children` is empty
otherwise, so the guard `isinstance(current_node, DirectoryNode)` is the
same as pushing that node's `children`) push each child in stored order
paired with `os.path.join(current_path, child_name)` — so the last stored
child is on top next.  The Python list's append/pop end is the head of this
list. -/
def iterFrom : List (TreeNode × String) → List (TreeNode × String)
  | [] => []
  | (n, p) :: rest =>
    (n, p) ::
      iterFrom ((n.children.map (fun kv => (kv.2, osPathJoin p kv.1))).reverse ++ rest)
termination_by stack => (stack.map (fun q => nodeWeight q.1)).sum
decreasing_by
  simp only [List.map_append, List.map_reverse, List.sum_append, List.sum_reverse,
    List.map_map, List.map_cons, List.sum_cons]
  have h : ∀ cs : List (String × TreeNode),
      (cs.map ((fun q : TreeNode × String => nodeWeight q.1) ∘
        (fun kv : String × TreeNode => (kv.2, osPathJoin p kv.1)))).sum = childrenWeight cs := by
    intro cs
    induction cs with
    | nil => simp [childrenWeight]
    | cons hd tl ih => simp [childrenWeight, ih]
  rw [h]
  cases n <;> simp [nodeWeight, TreeNode.children, childrenWeight]

/-- `Checkpoint.iter()`: the full (finite) sequence of `(node, relative path)`
pairs, starting from the stack `[(self.root, '')]`. -/
def Checkpoint.iter (c : Checkpoint) : List (TreeNode × String) :=
  iterFrom [(c.root, "")]

/-- The `CheckpointMeta` value: root checksum, timestamp, optional name. -/
structure CheckpointMeta where
  checksum : String
  time : DateTime
  name : Option String
deriving DecidableEq

/-- `CheckpointMeta.to_string`: `isoformat()` of the time, with `'.000000'`
appended when the rendering is 19 characters long (i.e. carries no fractional
part), then `checksum + '_' + timestring`, then `'_' + name` when `name` is
truthy (neither `None` nor the empty string). -/
def CheckpointMeta.to_string (m : CheckpointMeta) : String :=
  let timestring := m.time.isoformat
  let timestring := timestring ++ (if timestring.length = 19 then ".000000".data else [])
  ⟨m.checksum.data ++ '_' :: timestring ++
    (match m.name with
     | some n => if n.data.isEmpty then [] else '_' :: n.data
     | none => [])⟩

/-- Split at the first occurrence of `sep`, if any. -/
def splitFirst (sep : Char) : List Char → Option (List Char × List Char)
  | [] => none
  | c :: rest =>
    if c = sep then some ([], rest)
    else (splitFirst sep rest).map (fun p => (c :: p.1, p.2))

/-- Python `s.split(sep, 2)` for a single-character separator: at most two
split points, so one, two or three parts. -/
def pySplit2 (sep : Char) (l : List Char) : List (List Char) :=
  match splitFirst sep l with
  | none => [l]
  | some (a, rest) =>
    match splitFirst sep rest with
    | none => [a, rest]
    | some (b, rest2) => [a, b, rest2]

/-- `CheckpointMeta.from_string`: `boom = string.split('_', 2)`;
`boom[0]` is the checksum, `boom[1]` the timestamp (an `IndexError` if there
is no underscore at all), and `boom[2]` — when present — the name, verbatim.
`none` models the `IndexError` and any timestamp parse failure. -/
def CheckpointMeta.from_string (s : String) : Option CheckpointMeta :=
  match pySplit2 '_' s.data with
  | [_] => none
  | [c, t] => (datetime_from_iso_format t).map (fun dt => ⟨⟨c⟩, dt, none⟩)
  | [c, t, n] => (datetime_from_iso_format t).map (fun dt => ⟨⟨c⟩, dt, some ⟨n⟩⟩)
  | _ => none

/-! ### Lemmas about the Python dict model -/

theorem pyDictInsert_of_not_mem {α : Type} {d : List (String × α)} {k : String} (v : α)
    (h : k ∉ d.map Prod.fst) : pyDictInsert d k v = d ++ [(k, v)] := by
  induction d with
  | nil => rfl
  | cons kv rest ih =>
    simp only [List.map_cons, List.mem_cons] at h
    push_neg at h
    have h1 : ¬kv.1 = k := fun hh => h.1 hh.symm
    simp [pyDictInsert, h1, ih h.2]

theorem pyDictOfList_of_nodup {α : Type} {l : List (String × α)}
    (h : (l.map Prod.fst).Nodup) : pyDictOfList l = l := by
  suffices key : ∀ acc : List (String × α),
      (∀ k, k ∈ l.map Prod.fst → k ∉ acc.map Prod.fst) → (l.map Prod.fst).Nodup →
        l.foldl (fun d kv => pyDictInsert d kv.1 kv.2) acc = acc ++ l by
    simpa using key [] (by simp) h
  clear h
  induction l with
  | nil => intro acc _ _; simp
  | cons kv rest ih =>
    intro acc hdisj hnd
    simp only [List.foldl_cons]
    rw [pyDictInsert_of_not_mem kv.2 (hdisj kv.1 (by simp))]
    rw [ih (acc ++ [(kv.1, kv.2)]) ?_ (by simpa using (List.nodup_cons.mp (by simpa using hnd)).2)]
    · simp
    · intro k hk
      simp only [List.map_append, List.mem_append] at *
      push_neg
      refine ⟨hdisj k (by simp [hk]), ?_⟩
      intro hcon
      have : k = kv.1 := by simpa using hcon
      subst this
      exact (List.nodup_cons.mp (by simpa using hnd)).1 hk

theorem pyDictGet_eq_none_iff {α : Type} {l : List (String × α)} {k : String} :
    pyDictGet l k = none ↔ k ∉ l.map Prod.fst := by
  induction l with
  | nil => simp [pyDictGet]
  | cons kv rest ih =>
    by_cases hk : kv.1 = k
    · subst hk; simp [pyDictGet]
    · simp [pyDictGet, hk, ih, Ne.symm hk]

theorem pyDictGet_isSome_of_mem {α : Type} {l : List (String × α)} {k : String}
    (h : k ∈ l.map Prod.fst) : (pyDictGet l k).isSome := by
  cases hg : pyDictGet l k with
  | none => exact absurd (pyDictGet_eq_none_iff.mp hg) (by simpa using h)
  | some v => rfl

theorem pyDictGet_eq_some_iff {α : Type} {l : List (String × α)} {k : String} {v : α}
    (hnd : (l.map Prod.fst).Nodup) : pyDictGet l k = some v ↔ (k, v) ∈ l := by
  induction l with
  | nil => simp [pyDictGet]
  | cons kv rest ih =>
    simp only [List.map_cons, List.nodup_cons] at hnd
    by_cases hk : kv.1 = k
    · subst hk
      simp only [pyDictGet, if_pos rfl, List.mem_cons]
      constructor
      · rintro h
        left
        cases kv
        simp_all
      · rintro (h | h)
        · cases kv; simp_all
        · exact absurd (by simpa using List.mem_map_of_mem Prod.fst h) hnd.1
    · simp only [pyDictGet, if_neg hk, List.mem_cons, ih hnd.2]
      constructor
      · intro h; right; exact h
      · rintro (h | h)
        · cases kv; simp at h; simp_all
        · exact h

theorem pyDictGet_eq_of_perm {α : Type} {l1 l2 : List (String × α)}
    (hp : l1.Perm l2) (hnd : (l1.map Prod.fst).Nodup) (k : String) :
    pyDictGet l1 k = pyDictGet l2 k := by
  have hnd2 : (l2.map Prod.fst).Nodup := (hp.map Prod.fst).nodup_iff.mp hnd
  cases hg : pyDictGet l1 k with
  | none =>
    symm
    rw [pyDictGet_eq_none_iff] at *
    exact fun hc => hg ((hp.map Prod.fst).mem_iff.mpr hc)
  | some v =>
    symm
    rw [pyDictGet_eq_some_iff hnd2]
    exact hp.mem_iff.mp ((pyDictGet_eq_some_iff hnd).mp hg)

theorem mem_keys_pyDictInsert {α : Type} {d : List (String × α)} {k k' : String} {v : α} :
    k' ∈ (pyDictInsert d k v).map Prod.fst ↔ k' ∈ d.map Prod.fst ∨ k' = k := by
  induction d with
  | nil => simp [pyDictInsert]
  | cons kv rest ih =>
    by_cases hk : kv.1 = k
    · subst hk
      simp [pyDictInsert, List.mem_cons]
      tauto
    · simp [pyDictInsert, hk, List.mem_cons, ih]
      tauto

theorem mem_keys_pyDictOfList {α : Type} {l : List (String × α)} {k : String} :
    k ∈ (pyDictOfList l).map Prod.fst ↔ k ∈ l.map Prod.fst := by
  suffices key : ∀ acc : List (String × α),
      k ∈ (l.foldl (fun d kv => pyDictInsert d kv.1 kv.2) acc).map Prod.fst ↔
        k ∈ acc.map Prod.fst ∨ k ∈ l.map Prod.fst by
    simpa using key []
  induction l with
  | nil => intro acc; simp
  | cons kv rest ih =>
    intro acc
    simp only [List.foldl_cons, ih, mem_keys_pyDictInsert, List.map_cons, List.mem_cons]
    tauto

theorem pyDictOfList_append_single {α : Type} (l : List (String × α)) (kv : String × α) :
    pyDictOfList (l ++ [kv]) = pyDictInsert (pyDictOfList l) kv.1 kv.2 := by
  simp [pyDictOfList]

theorem pyDictGet_pyDictInsert {α : Type} (d : List (String × α)) (k k' : String) (v : α) :
    pyDictGet (pyDictInsert d k v) k' = if k = k' then some v else pyDictGet d k' := by
  induction d with
  | nil =>
    by_cases h : k = k' <;> simp [pyDictInsert, pyDictGet, h]
  | cons kv rest ih =>
    by_cases hk : kv.1 = k
    · subst hk
      by_cases h : kv.1 = k' <;> simp [pyDictInsert, pyDictGet, h]
    · simp only [pyDictInsert, if_neg hk]
      by_cases h : kv.1 = k'
      · subst h
        have hne : ¬k = kv.1 := fun hh => hk hh.symm
        simp [pyDictGet, hne]
      · simp [pyDictGet, h, ih]

/-- "Last wins": looking a key up in a dict built from a pair sequence yields
the value of the last pair carrying that key. -/
theorem pyDictGet_pyDictOfList {α : Type} (l : List (String × α)) (k : String) :
    pyDictGet (pyDictOfList l) k = (l.reverse.find? (fun kv => kv.1 == k)).map Prod.snd := by
  induction l using List.reverseRecOn with
  | nil => simp [pyDictOfList, pyDictGet]
  | append_singleton l kv ih =>
    rw [pyDictOfList_append_single, pyDictGet_pyDictInsert]
    by_cases h : kv.1 = k
    · simp [h, List.find?]
    · simp [h, List.find?, ih]

/-! ### Lemmas about decimal rendering and parsing -/

theorem digitChar_isDigit {d : Nat} (h : d < 10) : (Char.ofNat (48 + d)).isDigit = true := by
  interval_cases d <;> decide

theorem digitChar_toNat {d : Nat} (h : d < 10) : (Char.ofNat (48 + d)).toNat = 48 + d := by
  interval_cases d <;> decide

theorem padDigits_length (k n : Nat) : (padDigits k n).length = k := by
  induction k generalizing n with
  | zero => rfl
  | succ k ih => simp [padDigits, ih]

theorem padDigits_isDigit {k n : Nat} (h : n < 10 ^ k) :
    ∀ c ∈ padDigits k n, c.isDigit = true := by
  induction k generalizing n with
  | zero => intro c hc; simp [padDigits] at hc
  | succ k ih =>
    intro c hc
    simp only [padDigits, List.mem_cons] at hc
    have hp : 0 < 10 ^ k := Nat.pos_pow_of_pos k (by norm_num)
    have hdb : n / 10 ^ k < 10 := by
      rw [Nat.div_lt_iff_lt_mul hp]
      rw [pow_succ] at h
      omega
    rcases hc with hc | hc
    · subst hc
      exact digitChar_isDigit hdb
    · exact ih (Nat.mod_lt _ hp) c hc

theorem readDigitsAux_pad {k n : Nat} (h : n < 10 ^ k) (acc : Nat) (rest : List Char) :
    readDigitsAux k acc (padDigits k n ++ rest) = some (acc * 10 ^ k + n, rest) := by
  induction k generalizing n acc with
  | zero =>
    have : n = 0 := Nat.lt_one_iff.mp (by simpa using h)
    simp [padDigits, readDigitsAux, this]
  | succ k ih =>
    have hp : 0 < 10 ^ k := Nat.pos_pow_of_pos k (by norm_num)
    have hd : n / 10 ^ k < 10 := by
      rw [Nat.div_lt_iff_lt_mul hp]
      rw [pow_succ] at h
      omega
    simp only [padDigits, List.cons_append, readDigitsAux, digitChar_isDigit hd, if_pos,
      List.append_eq]
    rw [digitChar_toNat hd]
    have hmod : n % 10 ^ k < 10 ^ k := Nat.mod_lt _ hp
    have harith : ∀ q : Nat, acc * 10 + (48 + q - 48) = acc * 10 + q := fun q => by omega
    rw [harith (n / 10 ^ k), ih hmod]
    congr 2
    have hdm : 10 ^ k * (n / 10 ^ k) + n % 10 ^ k = n := Nat.div_add_mod n (10 ^ k)
    calc (acc * 10 + n / 10 ^ k) * 10 ^ k + n % 10 ^ k
      = acc * (10 ^ k * 10) + (10 ^ k * (n / 10 ^ k) + n % 10 ^ k) := by ring
    _ = acc * 10 ^ (k + 1) + n := by rw [hdm, pow_succ]

theorem readDigits_pad {k n : Nat} (h : n < 10 ^ k) (rest : List Char) :
    readDigits k (padDigits k n ++ rest) = some (n, rest) := by
  simpa using readDigitsAux_pad h 0 rest

theorem readExact_cons (c : Char) (rest : List Char) : readExact c (c :: rest) = some rest := by
  simp [readExact]

/-! ### Lemmas about `isoformat` and its parse -/

theorem isoformat_length {t : DateTime} :
    t.isoformat.length = if t.microsecond = 0 then 19 else 26 := by
  by_cases h : t.microsecond = 0 <;>
    simp [DateTime.isoformat, h, padDigits_length]

theorem isoformat_chars {t : DateTime} (hv : t.Valid) :
    ∀ c ∈ t.isoformat, c.isDigit = true ∨ c = '-' ∨ c = ':' ∨ c = 'T' ∨ c = '.' := by
  obtain ⟨h1, h2, h3, h4, h5, h6, h7, h8, h9, h10⟩ := hv
  intro c hc
  simp only [DateTime.isoformat, List.mem_append, List.mem_cons] at hc
  have hy : t.year < 10 ^ 4 := by omega
  have hmo : t.month < 10 ^ 2 := by omega
  have hd : t.day < 10 ^ 2 := by omega
  have hh : t.hour < 10 ^ 2 := by omega
  have hmi : t.minute < 10 ^ 2 := by omega
  have hs : t.second < 10 ^ 2 := by omega
  have hus : t.microsecond < 10 ^ 6 := by omega
  rcases hc with hc | hc | hc | hc | hc | hc | hc | hc | hc | hc | hc
  · exact Or.inl (padDigits_isDigit hy c hc)
  · exact Or.inr (Or.inl hc)
  · exact Or.inl (padDigits_isDigit hmo c hc)
  · exact Or.inr (Or.inl hc)
  · exact Or.inl (padDigits_isDigit hd c hc)
  · exact Or.inr (Or.inr (Or.inr (Or.inl hc)))
  · exact Or.inl (padDigits_isDigit hh c hc)
  · exact Or.inr (Or.inr (Or.inl hc))
  · exact Or.inl (padDigits_isDigit hmi c hc)
  · exact Or.inr (Or.inr (Or.inl hc))
  · rcases hc with hc | hc
    · exact Or.inl (padDigits_isDigit hs c hc)
    · by_cases h : t.microsecond = 0
      · simp [h] at hc
      · simp only [if_neg h, List.mem_cons] at hc
        rcases hc with hc | hc
        · exact Or.inr (Or.inr (Or.inr (Or.inr hc)))
        · exact Or.inl (padDigits_isDigit hus c hc)

/-- Parsing an assembled ISO timestamp: the six leading fixed-width fields are
consumed, leaving the fractional-part dispatch on the remaining `tail`. -/
theorem datetime_from_iso_format_eq {y mo d hr mi se : Nat} (tail : List Char)
    (hy : y < 10 ^ 4) (hmo : mo < 10 ^ 2) (hd : d < 10 ^ 2) (hh : hr < 10 ^ 2)
    (hmi : mi < 10 ^ 2) (hs : se < 10 ^ 2) :
    datetime_from_iso_format
      (padDigits 4 y ++ '-' :: (padDigits 2 mo ++ '-' :: (padDigits 2 d ++
        'T' :: (padDigits 2 hr ++ ':' :: (padDigits 2 mi ++ ':' ::
          (padDigits 2 se ++ tail)))))) =
      (readFraction tail).map (fun us => ⟨y, mo, d, hr, mi, se, us⟩) := by
  rw [datetime_from_iso_format]
  rw [readDigits_pad hy]
  simp only [Option.bind_eq_bind, Option.some_bind]
  rw [readExact_cons]
  simp only [Option.some_bind]
  rw [readDigits_pad hmo]
  simp only [Option.some_bind]
  rw [readExact_cons]
  simp only [Option.some_bind]
  rw [readDigits_pad hd]
  simp only [Option.some_bind]
  rw [readExact_cons]
  simp only [Option.some_bind]
  rw [readDigits_pad hh]
  simp only [Option.some_bind]
  rw [readExact_cons]
  simp only [Option.some_bind]
  rw [readDigits_pad hmi]
  simp only [Option.some_bind]
  rw [readExact_cons]
  simp only [Option.some_bind]
  rw [readDigits_pad hs]
  simp only [Option.some_bind]

/-- The timestamp rendering that `CheckpointMeta.to_string` embeds: the ISO
form plus the `'.000000'` pad when there was no fractional part. -/
theorem parse_isoformat_padded {t : DateTime} (hv : t.Valid) :
    datetime_from_iso_format
      (t.isoformat ++ (if t.isoformat.length = 19 then ".000000".data else [])) = some t := by
  obtain ⟨h1, h2, h3, h4, h5, h6, h7, h8, h9, h10⟩ := hv
  have hy : t.year < 10 ^ 4 := by omega
  have hmo : t.month < 10 ^ 2 := by omega
  have hd : t.day < 10 ^ 2 := by omega
  have hh : t.hour < 10 ^ 2 := by omega
  have hmi : t.minute < 10 ^ 2 := by omega
  have hs : t.second < 10 ^ 2 := by omega
  have hus : t.microsecond < 10 ^ 6 := by omega
  by_cases h : t.microsecond = 0
  · have hlen : t.isoformat.length = 19 := by rw [isoformat_length, if_pos h]
    rw [if_pos hlen]
    have hsfx : ".000000".data = '.' :: padDigits 6 0 := by rfl
    rw [hsfx]
    simp only [DateTime.isoformat, if_pos h, List.append_nil, List.append_assoc,
      List.cons_append]
    rw [datetime_from_iso_format_eq _ hy hmo hd hh hmi hs]
    have hfrac : readFraction ('.' :: padDigits 6 0) = some 0 := by
      have hnil : padDigits 6 0 = padDigits 6 0 ++ [] := (List.append_nil _).symm
      simp only [readFraction, if_pos rfl]
      rw [hnil, readDigits_pad (by norm_num)]
      rfl
    rw [hfrac]
    cases t
    simp_all
  · have hlen : t.isoformat.length = 26 := by rw [isoformat_length, if_neg h]
    rw [hlen]
    rw [if_neg (by norm_num), List.append_nil]
    simp only [DateTime.isoformat, if_neg h]
    rw [datetime_from_iso_format_eq _ hy hmo hd hh hmi hs]
    have hfrac : readFraction ('.' :: padDigits 6 t.microsecond) = some t.microsecond := by
      have hnil : padDigits 6 t.microsecond = padDigits 6 t.microsecond ++ [] :=
        (List.append_nil _).symm
      simp only [readFraction, if_pos rfl]
      rw [hnil, readDigits_pad hus]
      rfl
    rw [hfrac]
    cases t
    rfl

/-! ### Lemmas about the capped split -/

theorem splitFirst_of_not_mem {sep : Char} {l : List Char} (h : sep ∉ l) :
    splitFirst sep l = none := by
  induction l with
  | nil => rfl
  | cons c rest ih =>
    simp only [List.mem_cons] at h
    push_neg at h
    have h1 : ¬c = sep := fun hh => h.1 hh.symm
    simp [splitFirst, h1, ih h.2]

theorem splitFirst_append {sep : Char} {a : List Char} (b : List Char) (h : sep ∉ a) :
    splitFirst sep (a ++ sep :: b) = some (a, b) := by
  induction a with
  | nil => simp [splitFirst]
  | cons c rest ih =>
    simp only [List.mem_cons] at h
    push_neg at h
    have h1 : ¬c = sep := fun hh => h.1 hh.symm
    simp [splitFirst, h1, ih h.2]

theorem pySplit2_two {sep : Char} {a b : List Char} (ha : sep ∉ a) (hb : sep ∉ b) :
    pySplit2 sep (a ++ sep :: b) = [a, b] := by
  simp [pySplit2, splitFirst_append b ha, splitFirst_of_not_mem hb]

theorem pySplit2_three {sep : Char} {a b c : List Char} (ha : sep ∉ a) (hb : sep ∉ b) :
    pySplit2 sep (a ++ sep :: (b ++ sep :: c)) = [a, b, c] := by
  simp [pySplit2, splitFirst_append (b ++ sep :: c) ha, splitFirst_append c hb]

/-- No underscore occurs in the (possibly `'.000000'`-padded) timestamp
rendering embedded by `to_string`. -/
theorem underscore_not_mem_padded_isoformat {t : DateTime} (hv : t.Valid) :
    '_' ∉ t.isoformat ++ (if t.isoformat.length = 19 then ".000000".data else []) := by
  intro hmem
  rcases List.mem_append.mp hmem with hmem | hmem
  · rcases isoformat_chars hv '_' hmem with hc | hc | hc | hc | hc <;> simp_all
  · by_cases h : t.isoformat.length = 19
    · rw [if_pos h] at hmem
      have : ('_' : Char) ∈ ['.', '0', '0', '0', '0', '0', '0'] := hmem
      simp at this
    · rw [if_neg h] at hmem
      simp at hmem

theorem from_string_parts_two {ck T : List Char} (hck : '_' ∉ ck) (hT : '_' ∉ T) :
    CheckpointMeta.from_string ⟨ck ++ '_' :: T⟩ =
      (datetime_from_iso_format T).map (fun dt => ⟨⟨ck⟩, dt, none⟩) := by
  simp [CheckpointMeta.from_string, pySplit2_two hck hT]

theorem from_string_parts_three {ck iso sfx n : List Char} (hck : '_' ∉ ck)
    (hT : '_' ∉ iso ++ sfx) :
    CheckpointMeta.from_string ⟨ck ++ '_' :: (iso ++ (sfx ++ '_' :: n))⟩ =
      (datetime_from_iso_format (iso ++ sfx)).map (fun dt => ⟨⟨ck⟩, dt, some ⟨n⟩⟩) := by
  have hs : ck ++ '_' :: (iso ++ (sfx ++ '_' :: n)) =
      ck ++ '_' :: ((iso ++ sfx) ++ '_' :: n) := by
    rw [List.append_assoc]
  simp only [CheckpointMeta.from_string]
  rw [hs, pySplit2_three hck hT]

/-- **C2**: for a `CheckpointMeta` whose checksum is underscore-free and whose
name is either `None` or a non-empty string over the checkpoint-name charset
(underscores included), `from_string (to_string m)` reproduces checksum, time
(to microsecond precision) and name exactly; a name containing underscores
survives because the decode split is capped at two separator occurrences. -/
theorem C2_meta_roundtrip (m : CheckpointMeta) (hck : '_' ∉ m.checksum.data)
    (hv : m.time.Valid)
    (hname : m.name = none ∨
      ∃ n : String, m.name = some n ∧ n.data ≠ [] ∧ n.data.all isNameChar = true) :
    CheckpointMeta.from_string m.to_string = some m := by
  obtain ⟨ck, t, nm⟩ := m
  dsimp only at hck hv hname
  have hT := underscore_not_mem_padded_isoformat (t := t) hv
  rcases hname with hnone | ⟨n, hn, hne, _⟩
  · subst hnone
    simp only [CheckpointMeta.to_string, List.append_nil]
    rw [from_string_parts_two hck hT, parse_isoformat_padded hv]
    rfl
  · subst hn
    have hne' : n.data.isEmpty = false := by
      cases hd : n.data with
      | nil => exact absurd hd hne
      | cons c cs => rfl
    have htail : (if n.data.isEmpty = true then [] else '_' :: n.data) = '_' :: n.data := by
      rw [hne']
      simp
    have hT2 : '_' ∉ t.isoformat ++
        if t.isoformat.length = 19 then ['.', '0', '0', '0', '0', '0', '0'] else [] := hT
    simp only [CheckpointMeta.to_string, htail, List.append_assoc, List.cons_append]
    rw [from_string_parts_three hck hT2, parse_isoformat_padded hv]
    rfl

/-- Witness for C2 at the spec's own example: checksum `deadbeef`, time
`2024-06-01T12:00:00.123456`, name `my_backup`. -/
theorem C2_meta_roundtrip_witness :
    CheckpointMeta.from_string
        (CheckpointMeta.to_string ⟨"deadbeef", ⟨2024, 6, 1, 12, 0, 0, 123456⟩, some "my_backup"⟩) =
      some ⟨"deadbeef", ⟨2024, 6, 1, 12, 0, 0, 123456⟩, some "my_backup"⟩ :=
  C2_meta_roundtrip _ (by decide) (by decide) (Or.inr ⟨"my_backup", rfl, by decide, by decide⟩)

/-- **C10**: a `CheckpointMeta` whose name is the empty string encodes exactly
like one whose name is `None` (`"<checksum>_<isoTime>"`), so decoding that
encoding yields name `None`, not the empty string. -/
theorem C10_empty_name (m : CheckpointMeta) (hname : m.name = some "")
    (hck : '_' ∉ m.checksum.data) (hv : m.time.Valid) :
    m.to_string = CheckpointMeta.to_string ⟨m.checksum, m.time, none⟩ ∧
      CheckpointMeta.from_string m.to_string = some ⟨m.checksum, m.time, none⟩ := by
  obtain ⟨ck, t, nm⟩ := m
  dsimp only at hname hck hv
  subst hname
  constructor
  · simp [CheckpointMeta.to_string]
  · have hT := underscore_not_mem_padded_isoformat (t := t) hv
    have htail :
        (if ("" : String).data.isEmpty = true then ([] : List Char)
          else '_' :: ("" : String).data) = [] := by rfl
    simp only [CheckpointMeta.to_string, htail, List.append_nil]
    rw [from_string_parts_two hck hT, parse_isoformat_padded hv]
    rfl

/-- Witness for C10 at a concrete input. -/
theorem C10_empty_name_witness :
    CheckpointMeta.to_string ⟨"abc123", ⟨2024, 1, 1, 0, 0, 0, 0⟩, some ""⟩ =
        CheckpointMeta.to_string ⟨"abc123", ⟨2024, 1, 1, 0, 0, 0, 0⟩, none⟩ ∧
      CheckpointMeta.from_string
          (CheckpointMeta.to_string ⟨"abc123", ⟨2024, 1, 1, 0, 0, 0, 0⟩, some ""⟩) =
        some ⟨"abc123", ⟨2024, 1, 1, 0, 0, 0, 0⟩, none⟩ :=
  C10_empty_name _ rfl (by decide) (by decide)

/-- **C5**: `TreeNode.from_dict` applied to a record whose type discriminator
is none of `directory`, `file`, `symlink` fails with the decoding error raised
at the dispatch (`TypeError('Type ' + d['name'] + ' does not exist.')`),
surfaced immediately: no tree is returned. -/
theorem C5_from_dict_unknown_type (n c : String) (p : Nat) (ty : String)
    (children : Option (List NodeRepr))
    (h1 : ty ≠ "directory") (h2 : ty ≠ "file") (h3 : ty ≠ "symlink") :
    TreeNode.from_dict (.mk n c p ty children) =
      .error ("Type " ++ n ++ " does not exist.") := by
  rw [TreeNode.from_dict.eq_def]
  simp [h1, h2, h3]

/-- Witness for C5: a record with discriminator `socket`. -/
theorem C5_from_dict_unknown_type_witness :
    TreeNode.from_dict (.mk "nm" "ck" 1 "socket" none) =
      .error ("Type " ++ "nm" ++ " does not exist.") :=
  C5_from_dict_unknown_type "nm" "ck" 1 "socket" none (by decide) (by decide) (by decide)

/-- `TreeNode.children` of a non-directory is empty. -/
theorem children_eq_nil_of_not_dir {n : TreeNode} (h : n.isDir = false) :
    n.children = [] := by
  cases n <;> simp_all [TreeNode.isDir, TreeNode.children]

/-- **C7**: `Checkpoint.iter()` is the stack-driven depth-first sequence
seeded with `(root, "")`, children pushed in stored insertion order so the
last-inserted child is visited first: a root directory with non-directory
children stored as `a` then `b` yields `[(root, ""), (b, "b"), (a, "a")]`. -/
theorem C7_iter_order (na nb : TreeNode) (rck : String) (rp : Nat)
    (t : DateTime) (nm : Option String)
    (ha : na.isDir = false) (hb : nb.isDir = false) :
    Checkpoint.iter ⟨.directory "" rck rp [("a", na), ("b", nb)], t, nm⟩ =
      [(.directory "" rck rp [("a", na), ("b", nb)], ""), (nb, "b"), (na, "a")] := by
  have hja : osPathJoin "" "a" = "a" := by decide
  have hjb : osPathJoin "" "b" = "b" := by decide
  have hca : na.children = [] := children_eq_nil_of_not_dir ha
  have hcb : nb.children = [] := children_eq_nil_of_not_dir hb
  unfold Checkpoint.iter
  rw [iterFrom]
  simp only [TreeNode.children, List.map_cons, List.map_nil, List.reverse_cons,
    List.reverse_nil, List.nil_append, List.append_nil, List.cons_append, hja, hjb]
  rw [iterFrom]
  simp only [hcb, List.map_nil, List.reverse_nil, List.nil_append]
  rw [iterFrom]
  simp only [hca, List.map_nil, List.reverse_nil, List.nil_append]
  rw [iterFrom]

/-- Witness for C7 at concrete file children. -/
theorem C7_iter_order_witness :
    Checkpoint.iter ⟨.directory "" "rck" 493 [("a", .file "a" "ca" 420), ("b", .file "b" "cb" 420)],
        ⟨2024, 1, 1, 0, 0, 0, 0⟩, none⟩ =
      [(.directory "" "rck" 493 [("a", .file "a" "ca" 420), ("b", .file "b" "cb" 420)], ""),
        (.file "b" "cb" 420, "b"), (.file "a" "ca" 420, "a")] :=
  C7_iter_order (.file "a" "ca" 420) (.file "b" "cb" 420) "rck" 493
    ⟨2024, 1, 1, 0, 0, 0, 0⟩ none rfl rfl

/-- `pyNameMatch` in terms of the character class: Python's `$` also accepts
one newline at the very end of the string. -/
theorem pyNameMatch_iff (s : String) :
    pyNameMatch s = true ↔
      ((s.data ≠ [] ∧ s.data.all isNameChar = true) ∨
        (∃ l : List Char, s.data = l ++ ['\n'] ∧ l ≠ [] ∧ l.all isNameChar = true)) := by
  unfold pyNameMatch
  rw [Bool.or_eq_true, Bool.and_eq_true, Bool.and_eq_true, Bool.and_eq_true]
  constructor
  · rintro (⟨hne, hall⟩ | ⟨hlast, hne, hall⟩)
    · left
      refine ⟨?_, hall⟩
      intro hnil
      rw [hnil] at hne
      simp at hne
    · right
      have hlast' : s.data.getLast? = some '\n' := by
        simpa using hlast
      have hsne : s.data ≠ [] := by
        intro hnil
        rw [hnil] at hlast'
        simp at hlast'
      refine ⟨s.data.dropLast, ?_, ?_, hall⟩
      · have := List.dropLast_append_getLast hsne
        rw [List.getLast?_eq_getLast _ hsne] at hlast'
        have hlg : s.data.getLast hsne = '\n' := by
          injection hlast'
        rw [← hlg]
        exact this.symm
      · intro hnil
        rw [hnil] at hne
        simp at hne
  · rintro (⟨hne, hall⟩ | ⟨l, hl, hlne, hlall⟩)
    · left
      refine ⟨?_, hall⟩
      simpa [List.isEmpty_iff] using hne
    · right
      rw [hl]
      refine ⟨?_, ?_, ?_⟩
      · simp [List.getLast?_concat]
      · simpa [List.dropLast_concat, List.isEmpty_iff] using hlne
      · simpa [List.dropLast_concat] using hlall

/-- **C4 counterexample**: the name `"abc\n"` contains a character outside
the charset `[A-Za-z0-9_.\-]` yet the construction succeeds, because Python's
`$` matches just before a trailing newline; so "any character outside the
charset is rejected at construction time" is false as stated. -/
theorem C4_counterexample :
    (Checkpoint.init (.file "" "" 0) ⟨2024, 1, 1, 0, 0, 0, 0⟩ (some "abc\n")).isSome = true ∧
      ("abc\n".data.all isNameChar) = false := by
  exact ⟨rfl, by decide⟩

/-- **C4 (amended)**: construction with name `None` succeeds; construction
with a string name succeeds exactly when the name is a non-empty run of
charset characters, or such a run followed by one final newline (the Python
`re.match`/`$` semantics); otherwise the assertion fails and nothing is
constructed. -/
theorem C4_name_validation (root : TreeNode) (t : DateTime) :
    (Checkpoint.init root t none).isSome = true ∧
      ∀ name : String,
        (Checkpoint.init root t (some name)).isSome = true ↔
          ((name.data ≠ [] ∧ name.data.all isNameChar = true) ∨
            (∃ l : List Char, name.data = l ++ ['\n'] ∧ l ≠ [] ∧ l.all isNameChar = true)) := by
  refine ⟨rfl, fun name => ?_⟩
  rw [← pyNameMatch_iff]
  unfold Checkpoint.init
  by_cases h : pyNameMatch name = true <;> simp [h]

/-! ### Unfolding equations for the builder -/

theorem buildChildren_nil {H : Type} (hm : HashModel H) : buildChildren hm [] = some [] := by
  rw [buildChildren.eq_def]

theorem buildChildren_cons {H : Type} (hm : HashModel H) (n : String) (e : FSEntry)
    (rest : List (String × FSEntry)) :
    buildChildren hm ((n, e) :: rest) =
      if e.is_file = false ∧ e.is_dir = false then buildChildren hm rest
      else
        (buildNode hm e n).bind (fun t =>
          (buildChildren hm rest).map (fun l => (n, t) :: l)) := by
  rw [buildChildren.eq_def]

theorem buildNode_link {H : Type} (hm : HashModel H) (ifl idr : Bool) (mode : Nat)
    (target : String) (content : List Nat) (listing : List (String × FSEntry)) (name : String) :
    buildNode hm (.mk true ifl idr mode target content listing) name =
      some (.symlink name (hm.hex (hm.updStr hm.init target)) mode) := by
  rw [buildNode.eq_def]
  rfl

theorem buildNode_file {H : Type} (hm : HashModel H) (idr : Bool) (mode : Nat)
    (target : String) (content : List Nat) (listing : List (String × FSEntry)) (name : String) :
    buildNode hm (.mk false true idr mode target content listing) name =
      some (.file name (hm.fileChecksum content) mode) := by
  rw [buildNode.eq_def]
  rfl

theorem buildNode_dir {H : Type} (hm : HashModel H) (mode : Nat)
    (target : String) (content : List Nat) (listing : List (String × FSEntry)) (name : String) :
    buildNode hm (.mk false false true mode target content listing) name =
      (buildChildren hm listing).bind (fun built =>
        ((((pyDictOfList built).map Prod.fst).mergeSort (fun a b => decide (a ≤ b))).mapM
            (fun k => (pyDictGet (pyDictOfList built) k).map TreeNode.checksum)).map
          (fun child_checksums =>
            .directory name (hm.hex (child_checksums.foldl hm.updStr hm.init)) mode
              (pyDictOfList built))) := by
  rw [buildNode.eq_def]
  rfl

theorem buildNode_other {H : Type} (hm : HashModel H) (mode : Nat)
    (target : String) (content : List Nat) (listing : List (String × FSEntry)) (name : String) :
    buildNode hm (.mk false false false mode target content listing) name = none := by
  rw [buildNode.eq_def]
  rfl

/-- **C6 counterexample**: a directory whose only child is a broken symlink
(`islink` true, `isfile`/`isdir` false, as for a dangling link): the child is
filtered out by `DirectoryNode.build_node` before the symlink dispatch is ever
reached, so the built directory has no children — the claim says such a child
is built as a `SymlinkNode`. -/
theorem C6_counterexample :
    (FSEntry.mk true false false 511 "gone" [] []).is_link = true ∧
      (buildNode trivialHash
          (.mk false false true 493 "" [] [("s", .mk true false false 511 "gone" [] [])])
          "").map TreeNode.children = some [] := by
  refine ⟨rfl, ?_⟩
  simp [buildNode.eq_def, buildChildren.eq_def, FSEntry.is_file, FSEntry.is_dir,
    pyDictOfList, List.mapM.loop, TreeNode.children]

/-- **C6 (amended)**: in `TreeNode.build_node` the symlink check does take
precedence (any entry classified as a link becomes a `SymlinkNode`, never
traversed as its target); but a directory's children are pre-filtered by
`isfile`/`isdir` only, so a child that is neither a file nor a directory —
including a symlink whose target does not exist — is skipped with a non-fatal
diagnostic and never reaches the dispatch. -/
theorem C6_symlink_dispatch {H : Type} (hm : HashModel H) :
    (∀ (e : FSEntry) (n : String), e.is_link = true →
        buildNode hm e n = some (.symlink n (hm.hex (hm.updStr hm.init e.target)) e.mode)) ∧
      (∀ l : List (String × FSEntry),
        buildChildren hm l = buildChildren hm (l.filter (fun p => p.2.is_file || p.2.is_dir))) := by
  constructor
  · rintro ⟨il, ifl, idr, mode, target, content, listing⟩ n h
    simp only [FSEntry.is_link] at h
    subst h
    rw [buildNode_link]
    rfl
  · intro l
    induction l with
    | nil => rfl
    | cons hd rest ih =>
      obtain ⟨n, e⟩ := hd
      by_cases hc : e.is_file = false ∧ e.is_dir = false
      · have hf : (e.is_file || e.is_dir) = false := by
          rw [hc.1, hc.2]
          rfl
        rw [buildChildren_cons, if_pos hc, List.filter_cons, hf]
        simpa using ih
      · have hf : (e.is_file || e.is_dir) = true := by
          cases hfile : e.is_file <;> cases hdir : e.is_dir <;> simp_all
        rw [buildChildren_cons, if_neg hc, List.filter_cons, hf]
        simp only [if_pos]
        rw [buildChildren_cons, if_neg hc, ih]

/-- Witness for C6 (amended): a symlink entry (one whose target is a file) is
built as a `SymlinkNode` with the hash of the raw target. -/
theorem C6_symlink_dispatch_witness :
    buildNode trivialHash (.mk true true false 511 "tgt" [] []) "s" =
      some (.symlink "s" (trivialHash.hex (trivialHash.updStr trivialHash.init "tgt")) 511) :=
  (C6_symlink_dispatch trivialHash).1 (.mk true true false 511 "tgt" [] []) "s" rfl

/-! ### Structural induction over filesystem entries, `Option.mapM` helpers,
and sorting lemmas -/

/-- Induction over `FSEntry` with the inductive hypothesis available for every
entry of the listing. -/
theorem FSEntry.recOnListing {motive : FSEntry → Prop}
    (h : ∀ il ifl idr mode target content listing,
      (∀ kv ∈ listing, motive kv.2) →
        motive (.mk il ifl idr mode target content listing)) :
    ∀ e, motive e
  | .mk il ifl idr mode target content listing =>
    h il ifl idr mode target content listing (fun kv hkv =>
      FSEntry.recOnListing h kv.2)
termination_by e => sizeOf e
decreasing_by
  have h1 : sizeOf kv < sizeOf listing := List.sizeOf_lt_of_mem hkv
  obtain ⟨k, e⟩ := kv
  simp only [Prod.mk.sizeOf_spec] at h1
  simp only [FSEntry.mk.sizeOf_spec]
  omega

/-- Induction over `TreeNode` with the inductive hypothesis available for
every value of the children dict. -/
theorem TreeNode.recOnChildren {motive : TreeNode → Prop}
    (hdir : ∀ n c p children, (∀ kv ∈ children, motive kv.2) →
      motive (.directory n c p children))
    (hfile : ∀ n c p, motive (.file n c p))
    (hsym : ∀ n c p, motive (.symlink n c p)) :
    ∀ t, motive t
  | .directory n c p children =>
    hdir n c p children (fun kv hkv => TreeNode.recOnChildren hdir hfile hsym kv.2)
  | .file n c p => hfile n c p
  | .symlink n c p => hsym n c p
termination_by t => sizeOf t
decreasing_by
  have h1 : sizeOf kv < sizeOf children := List.sizeOf_lt_of_mem hkv
  obtain ⟨k, e⟩ := kv
  simp only [Prod.mk.sizeOf_spec] at h1
  simp only [TreeNode.directory.sizeOf_spec]
  omega

theorem mapM_option_eq_some {α β : Type} (f : α → Option β) (g : α → β) :
    ∀ l : List α, (∀ a ∈ l, f a = some (g a)) → l.mapM f = some (l.map g) := by
  intro l
  induction l with
  | nil => intro _; rfl
  | cons a rest ih =>
    intro h
    rw [List.mapM_cons, h a (by simp), ih (fun b hb => h b (by simp [hb]))]
    rfl

theorem mapM_option_isSome {α β : Type} (f : α → Option β) :
    ∀ l : List α, (∀ a ∈ l, (f a).isSome = true) → (l.mapM f).isSome = true := by
  intro l
  induction l with
  | nil => intro _; rfl
  | cons a rest ih =>
    intro h
    rw [List.mapM_cons]
    have ha := h a (by simp)
    obtain ⟨b, hb⟩ := Option.isSome_iff_exists.mp ha
    have hrest := ih (fun x hx => h x (by simp [hx]))
    obtain ⟨bs, hbs⟩ := Option.isSome_iff_exists.mp hrest
    rw [hb, hbs]
    rfl

theorem mapM_option_congr {α β : Type} {f g : α → Option β} :
    ∀ l : List α, (∀ a ∈ l, f a = g a) → l.mapM f = l.mapM g := by
  intro l
  induction l with
  | nil => intro _; rfl
  | cons a rest ih =>
    intro h
    rw [List.mapM_cons, List.mapM_cons, h a (by simp),
      ih (fun b hb => h b (by simp [hb]))]

/-- Sorting the same key multiset gives the same sorted key list. -/
theorem mergeSort_keys_eq {l1 l2 : List String} (hp : l1.Perm l2) :
    l1.mergeSort (fun a b => decide (a ≤ b)) = l2.mergeSort (fun a b => decide (a ≤ b)) :=
  List.eq_of_perm_of_sorted
    ((List.mergeSort_perm l1 _).trans (hp.trans (List.mergeSort_perm l2 _).symm))
    (List.sorted_mergeSort' l1) (List.sorted_mergeSort' l2)

/-- The keys of a children dict sorted as pairs agree with the sorted key
list. -/
theorem map_fst_mergeSort_pairs (d : List (String × TreeNode)) :
    (d.mergeSort (fun a b => decide (a.1 ≤ b.1))).map Prod.fst =
      (d.map Prod.fst).mergeSort (fun a b => decide (a ≤ b)) := by
  apply List.eq_of_perm_of_sorted (r := fun a b : String => a ≤ b)
  · exact ((List.mergeSort_perm d _).map Prod.fst).trans
      (List.mergeSort_perm (d.map Prod.fst) _).symm
  · have hs : List.Pairwise (fun a b : String × TreeNode => decide (a.1 ≤ b.1) = true)
        (d.mergeSort (fun a b => decide (a.1 ≤ b.1))) := by
      apply List.sorted_mergeSort
      · intro a b c hab hbc
        simp only [decide_eq_true_eq] at *
        exact le_trans hab hbc
      · intro a b
        rcases le_total a.1 b.1 with h | h <;> simp [h]
    refine List.Pairwise.map Prod.fst ?_ hs
    intro a b hab
    simpa using hab
  · exact List.sorted_mergeSort' (d.map Prod.fst)

/-- Every pair of the sorted children dict looks itself up (distinct keys). -/
theorem mergeSort_pairs_get {d : List (String × TreeNode)}
    (hnd : (d.map Prod.fst).Nodup) :
    ∀ kv ∈ d.mergeSort (fun a b => decide (a.1 ≤ b.1)), pyDictGet d kv.1 = some kv.2 :=
  fun kv hkv =>
    (pyDictGet_eq_some_iff hnd).mpr ((List.mergeSort_perm d _).mem_iff.mp hkv)

/-! ### The directory builder never gets stuck -/

theorem buildChildren_keys {H : Type} (hm : HashModel H) :
    ∀ {l : List (String × FSEntry)} {b : List (String × TreeNode)},
      buildChildren hm l = some b →
        b.map Prod.fst = (l.filter (fun p => p.2.is_file || p.2.is_dir)).map Prod.fst := by
  intro l
  induction l with
  | nil =>
    intro b hb
    rw [buildChildren_nil] at hb
    cases hb
    simp
  | cons hd rest ih =>
    obtain ⟨n, e⟩ := hd
    intro b hb
    rw [buildChildren_cons] at hb
    by_cases hc : e.is_file = false ∧ e.is_dir = false
    · have hf : (e.is_file || e.is_dir) = false := by
        rw [hc.1, hc.2]
        rfl
      rw [if_pos hc] at hb
      rw [List.filter_cons, hf]
      simpa using ih hb
    · have hf : (e.is_file || e.is_dir) = true := by
        cases hfile : e.is_file <;> cases hdir : e.is_dir <;> simp_all
      rw [if_neg hc] at hb
      rw [List.filter_cons, hf]
      cases hn : buildNode hm e n with
      | none => rw [hn] at hb; simp at hb
      | some t =>
        rw [hn] at hb
        simp only [Option.some_bind] at hb
        cases hr : buildChildren hm rest with
        | none => rw [hr] at hb; simp at hb
        | some l2 =>
          rw [hr] at hb
          simp only [Option.map_some'] at hb
          cases hb
          simpa using ih hr

theorem buildChildren_isSome_of {H : Type} (hm : HashModel H) :
    ∀ (l : List (String × FSEntry)),
      (∀ kv ∈ l, ∀ n, (kv.2.is_link || kv.2.is_file || kv.2.is_dir) = true →
        (buildNode hm kv.2 n).isSome = true) →
      (buildChildren hm l).isSome = true := by
  intro l
  induction l with
  | nil => intro _; rw [buildChildren_nil]; rfl
  | cons hd rest ih =>
    obtain ⟨n, e⟩ := hd
    intro h
    rw [buildChildren_cons]
    by_cases hc : e.is_file = false ∧ e.is_dir = false
    · rw [if_pos hc]
      exact ih (fun kv hkv => h kv (by simp [hkv]))
    · rw [if_neg hc]
      have hcls : (e.is_link || e.is_file || e.is_dir) = true := by
        cases h1 : e.is_file <;> cases h2 : e.is_dir <;> simp_all
      have hnode := h (n, e) (by simp) n hcls
      obtain ⟨t, ht⟩ := Option.isSome_iff_exists.mp hnode
      have hrest := ih (fun kv hkv => h kv (by simp [hkv]))
      obtain ⟨l2, hl2⟩ := Option.isSome_iff_exists.mp hrest
      rw [ht, hl2, Option.some_bind, Option.map_some']
      rfl

/-- Any entry the dispatch classifies (link, file or directory) builds to a
node; in particular the directory branch always completes. -/
theorem buildNode_isSome {H : Type} (hm : HashModel H) :
    ∀ (e : FSEntry) (n : String), (e.is_link || e.is_file || e.is_dir) = true →
      (buildNode hm e n).isSome = true := by
  intro e
  induction e using FSEntry.recOnListing with
  | h il ifl idr mode target content listing ihl =>
    intro n hcls
    cases il with
    | true => rw [buildNode_link]; rfl
    | false =>
      cases ifl with
      | true => rw [buildNode_file]; rfl
      | false =>
        cases idr with
        | false => simp [FSEntry.is_link, FSEntry.is_file, FSEntry.is_dir] at hcls
        | true =>
          rw [buildNode_dir]
          have hbc := buildChildren_isSome_of hm listing
            (fun kv hkv => ihl kv hkv)
          obtain ⟨built, hbuilt⟩ := Option.isSome_iff_exists.mp hbc
          rw [hbuilt, Option.some_bind]
          have hmapm : ((((pyDictOfList built).map Prod.fst).mergeSort
              (fun a b => decide (a ≤ b))).mapM
                (fun k => (pyDictGet (pyDictOfList built) k).map TreeNode.checksum)).isSome
              = true := by
            apply mapM_option_isSome
            intro k hk
            have hk2 : k ∈ (pyDictOfList built).map Prod.fst :=
              (List.mergeSort_perm _ _).mem_iff.mp hk
            have hgs := pyDictGet_isSome_of_mem hk2
            cases hg : pyDictGet (pyDictOfList built) k with
            | none => rw [hg] at hgs; cases hgs
            | some v => rfl
          obtain ⟨cs, hcs⟩ := Option.isSome_iff_exists.mp hmapm
          rw [hcs, Option.map_some']
          rfl

/-! ### Characterization of the directory checksum and its order invariance -/

theorem mapM_get_over_pairs {b : List (String × TreeNode)} :
    ∀ (s : List (String × TreeNode)), (∀ kv ∈ s, pyDictGet b kv.1 = some kv.2) →
      (s.map Prod.fst).mapM (fun k => (pyDictGet b k).map TreeNode.checksum) =
        some (s.map (fun kv => kv.2.checksum)) := by
  intro s
  induction s with
  | nil => intro _; rfl
  | cons kv rest ih =>
    intro h
    rw [List.map_cons, List.mapM_cons, h kv (by simp), Option.map_some',
      ih (fun x hx => h x (by simp [hx]))]
    rfl

/-- What `DirectoryNode.build_node` produces, given the built children `b`
with distinct names: the children dict is `b` itself and the checksum is the
digest of the children's checksum strings in sorted-name order. -/
theorem buildNode_dir_eq {H : Type} (hm : HashModel H) {mode : Nat} {target : String}
    {content : List Nat} {listing : List (String × FSEntry)} {name : String}
    {b : List (String × TreeNode)}
    (hb : buildChildren hm listing = some b) (hnd : (b.map Prod.fst).Nodup) :
    buildNode hm (.mk false false true mode target content listing) name =
      some (.directory name (specDirectoryChecksum hm b) mode b) := by
  rw [buildNode_dir, hb, Option.some_bind, pyDictOfList_of_nodup hnd]
  have hmm : ((b.map Prod.fst).mergeSort (fun a b => decide (a ≤ b))).mapM
      (fun k => (pyDictGet b k).map TreeNode.checksum) =
      some ((b.mergeSort (fun a b => decide (a.1 ≤ b.1))).map (fun kv => kv.2.checksum)) := by
    rw [← map_fst_mergeSort_pairs]
    exact mapM_get_over_pairs _ (mergeSort_pairs_get hnd)
  rw [hmm, Option.map_some']
  rfl

/-- Permuting the listing permutes the built children. -/
theorem buildChildren_perm {H : Type} (hm : HashModel H) :
    ∀ {l1 l2 : List (String × FSEntry)}, l1.Perm l2 →
      ∀ {b1 : List (String × TreeNode)}, buildChildren hm l1 = some b1 →
        ∃ b2, buildChildren hm l2 = some b2 ∧ b1.Perm b2 := by
  intro l1 l2 hp
  induction hp with
  | nil =>
    intro b1 h
    exact ⟨b1, h, List.Perm.refl _⟩
  | cons x htail ih =>
    rename_i la lb
    intro b1 h
    obtain ⟨n, e⟩ := x
    rw [buildChildren_cons] at h
    rw [buildChildren_cons]
    by_cases hc : e.is_file = false ∧ e.is_dir = false
    · rw [if_pos hc] at h
      rw [if_pos hc]
      exact ih h
    · rw [if_neg hc] at h
      rw [if_neg hc]
      cases hn : buildNode hm e n with
      | none => rw [hn] at h; simp at h
      | some t =>
        rw [hn] at h
        simp only [Option.some_bind] at h ⊢
        cases hr : buildChildren hm la with
        | none => rw [hr] at h; simp at h
        | some bl =>
          rw [hr] at h
          simp only [Option.map_some'] at h
          cases h
          obtain ⟨b2, hb2, hperm⟩ := ih hr
          rw [hb2]
          exact ⟨(n, t) :: b2, by rw [Option.map_some'], hperm.cons (n, t)⟩
  | swap x y rest =>
    intro b1 h
    obtain ⟨nx, ex⟩ := x
    obtain ⟨ny, ey⟩ := y
    by_cases hcx : ex.is_file = false ∧ ex.is_dir = false <;>
      by_cases hcy : ey.is_file = false ∧ ey.is_dir = false
    · rw [buildChildren_cons, if_pos hcy, buildChildren_cons, if_pos hcx] at h
      rw [buildChildren_cons, if_pos hcx, buildChildren_cons, if_pos hcy]
      exact ⟨b1, h, List.Perm.refl _⟩
    · rw [buildChildren_cons, if_neg hcy, buildChildren_cons, if_pos hcx] at h
      rw [buildChildren_cons, if_pos hcx, buildChildren_cons, if_neg hcy]
      exact ⟨b1, h, List.Perm.refl _⟩
    · rw [buildChildren_cons, if_pos hcy, buildChildren_cons, if_neg hcx] at h
      rw [buildChildren_cons, if_neg hcx, buildChildren_cons, if_pos hcy]
      exact ⟨b1, h, List.Perm.refl _⟩
    · rw [buildChildren_cons, if_neg hcy, buildChildren_cons, if_neg hcx] at h
      rw [buildChildren_cons, if_neg hcx, buildChildren_cons, if_neg hcy]
      cases hny : buildNode hm ey ny with
      | none => rw [hny] at h; simp at h
      | some ty =>
        rw [hny] at h
        simp only [Option.some_bind] at h
        cases hnx : buildNode hm ex nx with
        | none => rw [hnx] at h; simp at h
        | some tx =>
          rw [hnx] at h
          simp only [Option.some_bind] at h ⊢
          cases hr : buildChildren hm rest with
          | none => rw [hr] at h; simp at h
          | some bl =>
            rw [hr] at h
            simp only [Option.map_some'] at h ⊢
            cases h
            exact ⟨(nx, tx) :: (ny, ty) :: bl, rfl, List.Perm.swap (nx, tx) (ny, ty) bl⟩
  | trans h12 h23 ih12 ih23 =>
    intro b1 h
    obtain ⟨b2, hb2, hp12⟩ := ih12 h
    obtain ⟨b3, hb3, hp23⟩ := ih23 hb2
    exact ⟨b3, hb3, hp12.trans hp23⟩

/-- The spec-side directory digest only depends on the children dict up to
permutation, when names are distinct. -/
theorem specDirectoryChecksum_perm {H : Type} (hm : HashModel H)
    {b1 b2 : List (String × TreeNode)} (hp : b1.Perm b2)
    (hnd : (b1.map Prod.fst).Nodup) :
    specDirectoryChecksum hm b1 = specDirectoryChecksum hm b2 := by
  have hnd2 : (b2.map Prod.fst).Nodup := (hp.map Prod.fst).nodup_iff.mp hnd
  have h1 := mapM_get_over_pairs (b := b1) _ (mergeSort_pairs_get hnd)
  have h2 := mapM_get_over_pairs (b := b2) _ (mergeSort_pairs_get hnd2)
  rw [map_fst_mergeSort_pairs] at h1 h2
  have hkeys : (b1.map Prod.fst).mergeSort (fun a b => decide (a ≤ b)) =
      (b2.map Prod.fst).mergeSort (fun a b => decide (a ≤ b)) :=
    mergeSort_keys_eq (hp.map Prod.fst)
  have hsome :
      some ((b1.mergeSort (fun a b => decide (a.1 ≤ b.1))).map (fun kv => kv.2.checksum)) =
        some ((b2.mergeSort (fun a b => decide (a.1 ≤ b.1))).map (fun kv => kv.2.checksum)) := by
    rw [← h1, ← h2, ← hkeys]
    exact mapM_option_congr _ (fun k _ => by rw [pyDictGet_eq_of_perm hp hnd k])
  unfold specDirectoryChecksum
  rw [Option.some.inj hsome]

/-- **C1**: for every directory built by `DirectoryNode.build_node` the
checksum is the hex digest of one streaming hash fed the built children's
checksum strings in lexicographic order of child name; the same directory
built from any permutation of its (distinct-name) listing has the identical
checksum; and only the name-induced ordering of the checksum strings — never
the names themselves — determines the digest. -/
theorem C1_directory_checksum {H : Type} (hm : HashModel H)
    (l1 l2 : List (String × FSEntry)) (mode : Nat) (target : String)
    (content : List Nat) (name : String)
    (hnd : (l1.map Prod.fst).Nodup) (hp : l1.Perm l2) :
    (∀ t, buildNode hm (.mk false false true mode target content l1) name = some t →
        t.checksum = specDirectoryChecksum hm t.children) ∧
      (buildNode hm (.mk false false true mode target content l1) name).map TreeNode.checksum =
        (buildNode hm (.mk false false true mode target content l2) name).map
          TreeNode.checksum ∧
      (∀ c1 c2 : List (String × TreeNode),
        (c1.mergeSort (fun a b => decide (a.1 ≤ b.1))).map (fun kv => kv.2.checksum) =
          (c2.mergeSort (fun a b => decide (a.1 ≤ b.1))).map (fun kv => kv.2.checksum) →
        specDirectoryChecksum hm c1 = specDirectoryChecksum hm c2) := by
  have hbc1 : (buildChildren hm l1).isSome = true :=
    buildChildren_isSome_of hm l1 (fun kv _ n hcls => buildNode_isSome hm kv.2 n hcls)
  obtain ⟨b1, hb1⟩ := Option.isSome_iff_exists.mp hbc1
  have hndb1 : (b1.map Prod.fst).Nodup := by
    rw [buildChildren_keys hm hb1]
    exact List.Nodup.sublist ((List.filter_sublist l1).map Prod.fst) hnd
  obtain ⟨b2, hb2, hpb⟩ := buildChildren_perm hm hp hb1
  have hndb2 : (b2.map Prod.fst).Nodup := (hpb.map Prod.fst).nodup_iff.mp hndb1
  refine ⟨?_, ?_, ?_⟩
  · intro t ht
    rw [buildNode_dir_eq hm hb1 hndb1] at ht
    cases ht
    rfl
  · rw [buildNode_dir_eq hm hb1 hndb1, buildNode_dir_eq hm hb2 hndb2]
    simp only [Option.map_some', TreeNode.checksum]
    exact congrArg _ (specDirectoryChecksum_perm hm hpb hndb1)
  · intro c1 c2 hcs
    unfold specDirectoryChecksum
    rw [hcs]

/-- Witness for C1: two file children enumerated in the two possible orders
produce the same directory checksum. -/
theorem C1_directory_checksum_witness :
    (buildNode trivialHash
        (.mk false false true 493 "" []
          [("b", .mk false true false 420 "" [1] []), ("a", .mk false true false 420 "" [2] [])])
        "").map TreeNode.checksum =
      (buildNode trivialHash
        (.mk false false true 493 "" []
          [("a", .mk false true false 420 "" [2] []), ("b", .mk false true false 420 "" [1] [])])
        "").map TreeNode.checksum :=
  (C1_directory_checksum trivialHash
    [("b", .mk false true false 420 "" [1] []), ("a", .mk false true false 420 "" [2] [])]
    [("a", .mk false true false 420 "" [2] []), ("b", .mk false true false 420 "" [1] [])]
    493 "" [] "" (by decide)
    (List.Perm.swap ("a", FSEntry.mk false true false 420 "" [2] [])
      ("b", FSEntry.mk false true false 420 "" [1] []) [])).2.1

/-- **C8**: a node's checksum is a pure function of its content only — the
file's bytes for a file node (so identical bytes under different permission
bits, names or paths give equal checksums, while the mode bits are stored on
the node), the raw unresolved link-target string for a symlink node, and the
built children (hence their checksums in sorted-name order, per the C1
formula) for a directory node, never the directory's own mode. -/
theorem C8_checksum_content_only {H : Type} (hm : HashModel H) :
    (∀ (n1 n2 : String) (m1 m2 : Nat) (idr1 idr2 : Bool) (t1 t2 : String)
        (content : List Nat) (ls1 ls2 : List (String × FSEntry)),
      (buildNode hm (.mk false true idr1 m1 t1 content ls1) n1).map TreeNode.checksum =
          (buildNode hm (.mk false true idr2 m2 t2 content ls2) n2).map TreeNode.checksum ∧
        (buildNode hm (.mk false true idr1 m1 t1 content ls1) n1).map TreeNode.permissions =
          some m1) ∧
      (∀ (n1 n2 : String) (m1 m2 : Nat) (ifl1 ifl2 idr1 idr2 : Bool) (target : String)
          (c1 c2 : List Nat) (ls1 ls2 : List (String × FSEntry)),
        (buildNode hm (.mk true ifl1 idr1 m1 target c1 ls1) n1).map TreeNode.checksum =
            (buildNode hm (.mk true ifl2 idr2 m2 target c2 ls2) n2).map TreeNode.checksum ∧
          (buildNode hm (.mk true ifl1 idr1 m1 target c1 ls1) n1).map TreeNode.permissions =
            some m1) ∧
      (∀ (n : String) (m1 m2 : Nat) (t1 t2 : String) (c1 c2 : List Nat)
          (listing : List (String × FSEntry)),
        (buildNode hm (.mk false false true m1 t1 c1 listing) n).map TreeNode.checksum =
            (buildNode hm (.mk false false true m2 t2 c2 listing) n).map TreeNode.checksum ∧
          (buildNode hm (.mk false false true m1 t1 c1 listing) n).map TreeNode.permissions =
            some m1) := by
  refine ⟨?_, ?_, ?_⟩
  · intro n1 n2 m1 m2 idr1 idr2 t1 t2 content ls1 ls2
    rw [buildNode_file, buildNode_file]
    exact ⟨rfl, rfl⟩
  · intro n1 n2 m1 m2 ifl1 ifl2 idr1 idr2 target c1 c2 ls1 ls2
    rw [buildNode_link, buildNode_link]
    exact ⟨rfl, rfl⟩
  · intro n m1 m2 t1 t2 c1 c2 listing
    constructor
    · rw [buildNode_dir, buildNode_dir]
      cases hb : buildChildren hm listing with
      | none => rfl
      | some built =>
        simp only [Option.some_bind]
        cases hmm : (((pyDictOfList built).map Prod.fst).mergeSort
            (fun a b => decide (a ≤ b))).mapM
              (fun k => (pyDictGet (pyDictOfList built) k).map TreeNode.checksum) with
        | none => rfl
        | some cs => rfl
    · have hs : (buildNode hm (.mk false false true m1 t1 c1 listing) n).isSome = true :=
        buildNode_isSome hm _ n (by rfl)
      obtain ⟨t, ht⟩ := Option.isSome_iff_exists.mp hs
      rw [ht]
      rw [buildNode_dir] at ht
      cases hb : buildChildren hm listing with
      | none => rw [hb] at ht; simp at ht
      | some built =>
        rw [hb, Option.some_bind] at ht
        cases hmm : (((pyDictOfList built).map Prod.fst).mergeSort
            (fun a b => decide (a ≤ b))).mapM
              (fun k => (pyDictGet (pyDictOfList built) k).map TreeNode.checksum) with
        | none => rw [hmm] at ht; simp at ht
        | some cs =>
          rw [hmm, Option.map_some'] at ht
          cases ht
          rfl

/-- **C9**: decoding a directory representation whose children list contains
duplicate names succeeds (no error) and its child mapping holds, for each
name, the node decoded from the *last* entry carrying that name: later
entries silently overwrite earlier ones. -/
theorem C9_duplicate_names (n c : String) (p : Nat) (cs : List NodeRepr)
    (l : List (String × TreeNode)) (hdec : decodeChildren cs = .ok l) :
    TreeNode.from_dict (.mk n c p "directory" (some cs)) =
        .ok (.directory n c p (pyDictOfList l)) ∧
      l.map Prod.fst = cs.map NodeRepr.name ∧
      ∀ k, pyDictGet (pyDictOfList l) k =
        (l.reverse.find? (fun kv => kv.1 == k)).map Prod.snd := by
  refine ⟨?_, ?_, fun k => pyDictGet_pyDictOfList l k⟩
  · rw [TreeNode.from_dict.eq_def]
    simp [hdec]
  · clear n c p
    induction cs generalizing l with
    | nil =>
      simp only [decodeChildren] at hdec
      cases hdec
      rfl
    | cons r rest ih =>
      simp only [decodeChildren] at hdec
      cases hr : TreeNode.from_dict r with
      | error e => rw [hr] at hdec; cases hdec
      | ok t =>
        rw [hr] at hdec
        cases hrest : decodeChildren rest with
        | error e => rw [hrest] at hdec; cases hdec
        | ok l2 =>
          rw [hrest] at hdec
          cases hdec
          simp [ih l2 hrest]

/-- Witness for C9: two file entries both named `x`; the mapping holds the
second one. -/
theorem C9_duplicate_names_witness :
    TreeNode.from_dict
        (.mk "d" "ck" 7 "directory"
          (some [.mk "x" "c1" 1 "file" none, .mk "x" "c2" 2 "file" none])) =
        .ok (.directory "d" "ck" 7
          (pyDictOfList [("x", .file "x" "c1" 1), ("x", .file "x" "c2" 2)])) ∧
      [("x", TreeNode.file "x" "c1" 1), ("x", TreeNode.file "x" "c2" 2)].map Prod.fst =
        [NodeRepr.mk "x" "c1" 1 "file" none, NodeRepr.mk "x" "c2" 2 "file" none].map
          NodeRepr.name ∧
      ∀ k, pyDictGet (pyDictOfList [("x", TreeNode.file "x" "c1" 1),
          ("x", TreeNode.file "x" "c2" 2)]) k =
        ([("x", TreeNode.file "x" "c1" 1),
          ("x", TreeNode.file "x" "c2" 2)].reverse.find? (fun kv => kv.1 == k)).map Prod.snd :=
  C9_duplicate_names "d" "ck" 7
    [.mk "x" "c1" 1 "file" none, .mk "x" "c2" 2 "file" none]
    [("x", .file "x" "c1" 1), ("x", .file "x" "c2" 2)] rfl

theorem to_dict_name (t : TreeNode) : (t.to_dict).name = t.name := by
  cases t <;> rfl

/-- Decoding the emitted children representations succeeds and reproduces the
children's keys and representations (given the per-child round trip). -/
theorem decodeChildren_toDicts (cs : List (String × TreeNode))
    (hIH : ∀ kv ∈ cs, kv.2.wf = true →
      (TreeNode.from_dict kv.2.to_dict).map TreeNode.to_dict = .ok kv.2.to_dict)
    (hcwf : childrenWf cs = true) :
    ∃ l', decodeChildren (childrenToDicts cs) = .ok l' ∧
      l'.map Prod.fst = cs.map Prod.fst ∧ childrenToDicts l' = childrenToDicts cs := by
  induction cs with
  | nil => exact ⟨[], rfl, rfl, rfl⟩
  | cons kv rest ih =>
    obtain ⟨k, t⟩ := kv
    simp only [childrenWf, Bool.and_eq_true, beq_iff_eq] at hcwf
    obtain ⟨⟨hk, hwft⟩, hcrest⟩ := hcwf
    have hrt := hIH (k, t) (by simp) hwft
    cases hfd : TreeNode.from_dict t.to_dict with
    | error e =>
      rw [hfd] at hrt
      simp [Except.map] at hrt
    | ok t' =>
      rw [hfd] at hrt
      simp only [Except.map] at hrt
      have ht' : t'.to_dict = t.to_dict := by
        injection hrt
      obtain ⟨l2, hl2, hkeys, hdicts⟩ := ih (fun x hx h => hIH x (by simp [hx]) h) hcrest
      refine ⟨(t.to_dict.name, t') :: l2, ?_, ?_, ?_⟩
      · simp only [childrenToDicts, decodeChildren, hfd, hl2]
      · simp only [List.map_cons, hkeys]
        rw [to_dict_name, hk]
      · simp only [childrenToDicts, hdicts, ht']

/-- **C3**: for every well-formed node tree (children dicts keyed by the
children's names, names distinct — the invariant of every tree the program
builds or decodes) of any variant and depth,
`from_dict (to_dict T)` yields a tree whose own `to_dict` equals
`to_dict T`. -/
theorem C3_to_dict_roundtrip : ∀ t : TreeNode, t.wf = true →
    (TreeNode.from_dict t.to_dict).map TreeNode.to_dict = .ok t.to_dict := by
  intro t
  induction t using TreeNode.recOnChildren with
  | hfile n c p => intro _; rfl
  | hsym n c p => intro _; rfl
  | hdir n c p children ih =>
    intro hwf
    simp only [TreeNode.wf, Bool.and_eq_true, decide_eq_true_eq] at hwf
    obtain ⟨hnd, hcwf⟩ := hwf
    obtain ⟨l', hl', hkeys, hdicts⟩ := decodeChildren_toDicts children
      (fun kv hkv h => ih kv hkv h) hcwf
    have hndl : (l'.map Prod.fst).Nodup := by
      rw [hkeys]
      exact hnd
    simp only [TreeNode.to_dict, TreeNode.from_dict, hl']
    simp only [reduceIte]
    rw [pyDictOfList_of_nodup hndl]
    simp only [Except.map, TreeNode.to_dict, hdicts]

/-- Witness for C3 at a nested concrete tree (directory containing a file and
a directory containing a symlink). -/
theorem C3_to_dict_roundtrip_witness :
    (TreeNode.from_dict
        (TreeNode.directory "" "rr" 493
          [("f", .file "f" "cf" 420),
            ("d", .directory "d" "cd" 493 [("s", .symlink "s" "cs" 511)])]).to_dict).map
      TreeNode.to_dict =
      .ok (TreeNode.directory "" "rr" 493
        [("f", .file "f" "cf" 420),
          ("d", .directory "d" "cd" 493 [("s", .symlink "s" "cs" 511)])]).to_dict :=
  C3_to_dict_roundtrip _ (by decide)

end Bakker
